import Mathlib

/-! xk6_mongo: option decoding, query compilation and cursor materialisation

A shallow embedding of `mongo.go` (package `xk6_mongo`): the typed option
structures, the part of `Client.FindWithLimit` that turns decoded options into
the find options handed to the driver, the cursor loop that collects the
result list, and `Client.FindAll`.

Go values of type `interface{}` are values of `Any`; Go `error` values are
strings; a nil slice result is `none` and a non-nil slice is `some`.
`log.Fatal` ends the process and is the `fatal` outcome of a run.
-/

namespace Xk6Mongo

/-! ## Data model -/

/-- Dynamically typed Go values (`interface{}`) as they reach the client from
the script: nil, booleans, integers, strings, slices and string-keyed maps.
A map is listed as its key/value pairs. -/
inductive Any where
  | nil : Any
  | bool (b : Bool) : Any
  | int (n : Int) : Any
  | str (s : String) : Any
  | slice (xs : List Any) : Any
  | map (kvs : List (String × Any)) : Any

/-- Go `bson.E`: one element of an ordered document. -/
structure E where
  Key : String
  Val : Any

/-- Go `bson.D`: an ordered document, a slice of elements. -/
abbrev D := List E

/-- Go `bson.M`: a decoded record, field name to value. -/
abbrev M := List (String × Any)

/-- Go `type Sort struct { Asc bool; Field string }` (`Sort` is reserved in
Lean, hence the longer name). -/
structure SortKey where
  Asc : Bool
  Field : String

/-- Go `type Options struct { Limit int64; Sort []Sort }`. -/
structure Options where
  Limit : Int
  SortList : List SortKey

/-- The fields of the driver's `options.FindOptions` that this package sets:
`Limit` is a `*int64` (nil when unset), `Sort` and `Projection` are
`interface{}` values (nil when unset). -/
structure FindOptions where
  Limit : Option Int
  SortDoc : Option D
  Projection : Any

/-- Go `options.Find()`: nothing set. -/
def FindOptions.Find : FindOptions := ⟨none, none, Any.nil⟩

/-- Go `(*FindOptions).SetLimit`. -/
def FindOptions.SetLimit (o : FindOptions) (i : Int) : FindOptions :=
  { o with Limit := some i }

/-- Go `(*FindOptions).SetSort`. -/
def FindOptions.SetSort (o : FindOptions) (sort : D) : FindOptions :=
  { o with SortDoc := some sort }

/-- Go `(*FindOptions).SetProjection`. -/
def FindOptions.SetProjection (o : FindOptions) (projection : Any) : FindOptions :=
  { o with Projection := projection }

/-! ## Query compilation (`FindWithLimit`, lines 117-137) -/

/-- The body of `for _, sort := range optsStruct.Sort`: one `append` per entry,
`bson.E{sort.Field, 1}` when `sort.Asc` and `bson.E{sort.Field, -1}` otherwise. -/
def sortLoop : List SortKey → D → D
  | [], sortStruc => sortStruc
  | sort :: rest, sortStruc =>
    if sort.Asc then
      sortLoop rest (sortStruc ++ [⟨sort.Field, Any.int 1⟩])
    else
      sortLoop rest (sortStruc ++ [⟨sort.Field, Any.int (-1)⟩])

/-- Lines 117-137 of `FindWithLimit`: `options.Find()`, then `SetLimit` when
`optsStruct.Limit != 0`, then `SetSort` when `len(optsStruct.Sort) != 0`, then
`SetProjection(fields)`. -/
def buildFindOptions (optsStruct : Options) (fields : Any) : FindOptions :=
  let options := FindOptions.Find
  let options := if optsStruct.Limit ≠ 0 then options.SetLimit optsStruct.Limit else options
  let options :=
    if optsStruct.SortList.length ≠ 0 then
      options.SetSort (sortLoop optsStruct.SortList [])
    else options
  options.SetProjection fields

/-! ## Option decoding (`FindWithLimit`, lines 100-113) -/

/-- Go `int64(x)` on an integer: the value modulo `2^64`, read as signed. -/
def toInt64 (n : Int) : Int :=
  (n + 2 ^ 63) % 2 ^ 64 - 2 ^ 63

/-- A key names a struct field when it is the field name itself or when the
decoder's name matcher accepts the pair. -/
def namesField (matchName : String → String → Bool) (key fieldName : String) : Bool :=
  key == fieldName || matchName key fieldName

/-- The map entry the decoder uses for a struct field: the entry whose key is
the field name, and otherwise the first entry whose key the name matcher
accepts. -/
def lookupField (matchName : String → String → Bool) (kvs : List (String × Any))
    (fieldName : String) : Option (String × Any) :=
  match kvs.find? (fun kv => kv.1 == fieldName) with
  | some kv => some kv
  | none => kvs.find? (fun kv => matchName kv.1 fieldName)

/-- The keys of the map that no field of the struct used. -/
def unusedKeys (matchName : String → String → Bool) (kvs : List (String × Any))
    (fieldNames : List String) : List String :=
  let used := fieldNames.filterMap (fun f => (lookupField matchName kvs f).map Prod.fst)
  (kvs.map Prod.fst).filter (fun k => !used.contains k)

/-- Decoding into an `int64` field: nil leaves the zero value, an integer is
stored, everything else is a type mismatch. -/
def decodeInt (name : String) : Any → Except String Int
  | Any.nil => Except.ok 0
  | Any.int n => Except.ok (toInt64 n)
  | _ => Except.error (name ++ ": expected type int64")

/-- Decoding into a `bool` field. -/
def decodeBool (name : String) : Any → Except String Bool
  | Any.nil => Except.ok false
  | Any.bool b => Except.ok b
  | _ => Except.error (name ++ ": expected type bool")

/-- Decoding into a `string` field. -/
def decodeString (name : String) : Any → Except String String
  | Any.nil => Except.ok ""
  | Any.str s => Except.ok s
  | _ => Except.error (name ++ ": expected type string")

/-- Decoding one field of a struct from a map: a missing key leaves the zero
value, a present key is decoded by the decoder of the field type. -/
def decodeField {α : Type} (matchName : String → String → Bool) (kvs : List (String × Any))
    (fieldName : String) (zero : α) (dec : String → Any → Except String α) : Except String α :=
  match lookupField matchName kvs fieldName with
  | none => Except.ok zero
  | some kv => dec fieldName kv.2

/-- Decoding into a `Sort` struct (fields `Asc`, `Field`), unknown keys
rejected. -/
def decodeSortKey (matchName : String → String → Bool) (name : String) :
    Any → Except String SortKey
  | Any.nil => Except.ok ⟨false, ""⟩
  | Any.map kvs =>
    match decodeField matchName kvs "Asc" false decodeBool,
          decodeField matchName kvs "Field" "" decodeString,
          unusedKeys matchName kvs ["Asc", "Field"] with
    | Except.ok asc, Except.ok field, [] => Except.ok ⟨asc, field⟩
    | Except.error e, _, _ => Except.error e
    | _, Except.error e, _ => Except.error e
    | _, _, _ => Except.error (name ++ " has invalid keys")
  | _ => Except.error (name ++ ": expected a map")

/-- Decoding the elements of a slice, in order; any element error fails the
slice. -/
def decodeElems (matchName : String → String → Bool) (name : String) :
    List Any → Except String (List SortKey)
  | [] => Except.ok []
  | x :: xs =>
    match decodeSortKey matchName name x, decodeElems matchName name xs with
    | Except.ok s, Except.ok ss => Except.ok (s :: ss)
    | Except.error e, _ => Except.error e
    | _, Except.error e => Except.error e

/-- Decoding into a `[]Sort` field. -/
def decodeSlice (matchName : String → String → Bool) (name : String) :
    Any → Except String (List SortKey)
  | Any.nil => Except.ok []
  | Any.slice xs => decodeElems matchName name xs
  | _ => Except.error (name ++ ": source data must be an array or slice")

/-- Modelled from the spec: the decoder of the `mapstructure` library, which
`FindWithLimit` builds with `ErrorUnused: true` and `Result: &optsStruct` and
which is not part of the source tree. Following the Option Decoder contract of
the spec: the input is meant to be a map with an optional integer limit and an
optional list of sort entries (a string field name and a boolean direction);
a key that names no field of the schema is an error, a type mismatch is an
error, a missing field keeps its zero value (`Limit = 0`, empty `Sort`). The
rule that matches map keys to the Go field names `Limit`, `Sort`, `Asc`,
`Field` is the parameter `matchName`; an absent (nil) input has every field
missing. -/
def decode (matchName : String → String → Bool) : Any → Except String Options
  | Any.nil => Except.ok ⟨0, []⟩
  | Any.map kvs =>
    match decodeField matchName kvs "Limit" 0 decodeInt,
          decodeField matchName kvs "Sort" [] (decodeSlice matchName),
          unusedKeys matchName kvs ["Limit", "Sort"] with
    | Except.ok limit, Except.ok sort, [] => Except.ok ⟨limit, sort⟩
    | Except.error e, _, _ => Except.error e
    | _, Except.error e, _ => Except.error e
    | _, _, _ => Except.error "has invalid keys"
  | _ => Except.error "expected a map"

/-! ## The cursor (driver type `mongo.Cursor`) -/

/-- A server-side cursor as the client sees it. `pending` lists the documents
the cursor has still to deliver, each with the outcome `cur.Decode` has on it
(the decoded record, or the decode error); `current` is the document `Next`
moved to last; `err` is what `cur.Err()` reports once `Next` has returned
false; `closeCalls` counts the calls of `Close`. -/
structure Cursor where
  pending : List (Except String M)
  current : Option (Except String M)
  err : Option String
  closeCalls : Nat

/-- Go `cur.Next(ctx)`: moves to the next document when there is one. -/
def Cursor.Next (cur : Cursor) : Bool × Cursor :=
  match cur.pending with
  | [] => (false, cur)
  | r :: rest => (true, { cur with pending := rest, current := some r })

/-- Go `cur.Decode(&result)` on the current document. -/
def Cursor.Decode (cur : Cursor) : Except String M :=
  match cur.current with
  | some r => r
  | none => Except.error "no current document"

/-- Go `cur.Err()`. -/
def Cursor.Err (cur : Cursor) : Option String := cur.err

/-- Go `cur.Close(ctx)`. -/
def Cursor.Close (cur : Cursor) : Cursor :=
  { cur with closeCalls := cur.closeCalls + 1 }

/-- Go `cur.All(ctx, &results)` of the driver: decodes every document the
cursor has still to deliver, in order, stops at the first decode error,
reports the cursor error otherwise, and closes the cursor. -/
def Cursor.All (cur : Cursor) : Except String (List M) × Cursor :=
  let decoded := cur.pending.foldl
    (fun acc r => match acc, r with
      | Except.ok list, Except.ok result => Except.ok (list ++ [result])
      | Except.ok _, Except.error e => Except.error e
      | Except.error e, _ => Except.error e)
    (Except.ok [])
  let cur := { cur with pending := [], current := none }
  match decoded, cur.Err with
  | Except.ok list, none => (Except.ok list, cur.Close)
  | Except.ok _, some e => (Except.error e, cur.Close)
  | Except.error e, _ => (Except.error e, cur.Close)

/-! ## The store boundary -/

/-- The filter argument of `col.Find` as this package passes it: the bytes
`bson.Marshal` returned, or a `bson.D` literal. -/
inductive Filter where
  | bytes (b : List Nat) : Filter
  | doc (d : D) : Filter

/-- One call `col.Find(ctx, filter, opts...)` on the collection `collection`
of the database `database`. A call without options is the call with
`options.Find()`, nothing set. -/
structure FindCall where
  database : String
  collection : String
  filter : Filter
  opts : FindOptions

/-- The libraries and the store behind the client: the name matcher of the
option decoder, `bson.Marshal`, and `col.Find`, which opens a cursor or fails. -/
structure Driver where
  matchName : String → String → Bool
  Marshal : Any → Except String (List Nat)
  Find : FindCall → Except String Cursor

/-- How a call of `FindWithLimit` ends: the process exits in `log.Fatal`, or
the call returns a list (`none` is the nil slice). -/
inductive Outcome where
  | fatal (err : String) : Outcome
  | returned (list : Option (List M)) : Outcome

/-- What a call of `FindWithLimit` did: how it ended, the find calls it sent
to the store, and the cursor it opened, in its final state. -/
structure Run where
  outcome : Outcome
  calls : List FindCall
  cursor : Option Cursor

/-- How a call of `FindAll` ends: `log.Fatal`, `panic`, or the returned
`results` (listed by content; whether an empty `results` is nil is not
tracked). -/
inductive AllOutcome where
  | fatal (err : String) : AllOutcome
  | panicked (err : String) : AllOutcome
  | returned (results : List M) : AllOutcome

/-- What a call of `FindAll` did. -/
structure AllRun where
  outcome : AllOutcome
  calls : List FindCall
  cursor : Option Cursor

/-! ## Cursor materialisation (`FindWithLimit`, lines 153-179) -/

/-- The loop `for cur.Next(ctx) { ... }` of lines 156-171, started with the
list built so far. The first component is `none` when the loop body ran
`return nil` on a decode error, and `some list` when `Next` returned false. -/
def forLoop (cur : Cursor) (list : List M) : Option (List M) × Cursor :=
  match h : cur.Next with
  | (false, cur1) => (some list, cur1)
  | (true, cur1) =>
    match cur1.Decode with
    | Except.error _ => (none, cur1)
    | Except.ok result => forLoop cur1 (list ++ [result])
termination_by cur.pending.length
decreasing_by
  simp_wf
  unfold Cursor.Next at h
  split at h
  · simp at h
  · next r rest hp =>
    simp only [Prod.mk.injEq, true_and] at h
    subst h
    simp [hp]

/-- Lines 153-179: `list = make([]bson.M, 0)`, `defer cur.Close(ctx)`, the
loop, the check of `cur.Err()`, and `return list`. The deferred `Close` runs
at each of the three returns. -/
def materialize (cur : Cursor) : Option (List M) × Cursor :=
  match forLoop cur [] with
  | (none, cur1) => (none, cur1.Close)
  | (some list, cur1) =>
    match cur1.Err with
    | some _ => (none, cur1.Close)
    | none => (some list, cur1.Close)

/-- Go `FindWithLimit` (lines 92-180). `mapstructure.NewDecoder` cannot fail here, its
`Result` being a pointer. A failing `Decode`, `bson.Marshal` or `col.Find`
ends in `log.Fatal`. -/
def FindWithLimit (c : Driver) (database collection : String) (filter opts fields : Any) : Run :=
  match decode c.matchName opts with
  | Except.error err => ⟨Outcome.fatal err, [], none⟩
  | Except.ok optsStruct =>
    let options := buildFindOptions optsStruct fields
    match c.Marshal filter with
    | Except.error err => ⟨Outcome.fatal err, [], none⟩
    | Except.ok marchaled_filter =>
      let call : FindCall := ⟨database, collection, Filter.bytes marchaled_filter, options⟩
      match c.Find call with
      | Except.error err => ⟨Outcome.fatal err, [call], none⟩
      | Except.ok cur =>
        let (list, cur1) := materialize cur
        ⟨Outcome.returned list, [call], some cur1⟩

/-- Go `FindAll` (lines 196-209): `col.Find(ctx, bson.D{{}})`, whose filter is the
slice literal holding one zero `bson.E` (empty key, nil value), then
`cur.All`. -/
def FindAll (c : Driver) (database collection : String) : AllRun :=
  let call : FindCall := ⟨database, collection, Filter.doc [⟨"", Any.nil⟩], FindOptions.Find⟩
  match c.Find call with
  | Except.error err => ⟨AllOutcome.fatal err, [call], none⟩
  | Except.ok cur =>
    match cur.All with
    | (Except.error err, cur1) => ⟨AllOutcome.panicked err, [call], some cur1⟩
    | (Except.ok results, cur1) => ⟨AllOutcome.returned results, [call], some cur1⟩

/-! ## Sample inputs -/

/-- A name matcher that compares keys and field names letter by letter after
lowering ASCII capitals. -/
def foldMatch (key fieldName : String) : Bool :=
  key.data.map Char.toLower == fieldName.data.map Char.toLower

/-- A driver whose `Marshal` returns the bytes of the empty document and whose
`Find` opens the given cursor. -/
def sampleDriver (cur : Cursor) : Driver :=
  ⟨foldMatch, fun _ => Except.ok [5, 0, 0, 0, 0], fun _ => Except.ok cur⟩

/-- A fresh cursor over the given documents. -/
def cursorOf (docs : List (Except String M)) (err : Option String) : Cursor :=
  ⟨docs, none, err, 0⟩

/-- The options `{sort: [{field: "age", asc: false}, {field: "name", asc: true}]}`. -/
def sampleSortOpts : Any :=
  Any.map [("sort", Any.slice [
    Any.map [("field", Any.str "age"), ("asc", Any.bool false)],
    Any.map [("field", Any.str "name"), ("asc", Any.bool true)]])]

/-- Five records, the third of which fails to decode. -/
def fiveRecords : List (Except String M) :=
  [Except.ok [("n", Any.int 1)], Except.ok [("n", Any.int 2)], Except.error "cannot decode",
   Except.ok [("n", Any.int 4)], Except.ok [("n", Any.int 5)]]

/-! ## Lemmas on query compilation -/

/-- The element the sort loop appends for one entry. -/
theorem sortLoop_eq (ks : List SortKey) (acc : D) :
    sortLoop ks acc =
      acc ++ ks.map (fun k => (⟨k.Field, Any.int (if k.Asc then 1 else -1)⟩ : E)) := by
  induction ks generalizing acc with
  | nil => simp [sortLoop]
  | cons k rest ih =>
    unfold sortLoop
    by_cases hk : k.Asc = true
    · simp [hk, ih]
    · simp [hk, ih]

theorem buildFindOptions_Limit (o : Options) (fields : Any) :
    (buildFindOptions o fields).Limit = if o.Limit = 0 then none else some o.Limit := by
  unfold buildFindOptions
  by_cases hl : o.Limit = 0 <;> by_cases hs : o.SortList.length = 0 <;>
    simp [hl, hs, FindOptions.Find, FindOptions.SetLimit, FindOptions.SetSort,
      FindOptions.SetProjection]

theorem buildFindOptions_SortDoc (o : Options) (fields : Any) :
    (buildFindOptions o fields).SortDoc =
      if o.SortList.length = 0 then none
      else some (o.SortList.map (fun k => (⟨k.Field, Any.int (if k.Asc then 1 else -1)⟩ : E))) := by
  unfold buildFindOptions
  by_cases hl : o.Limit = 0 <;> by_cases hs : o.SortList.length = 0 <;>
    simp only [hl, hs, FindOptions.Find, FindOptions.SetLimit, FindOptions.SetSort,
      FindOptions.SetProjection, sortLoop_eq, ne_eq, not_true_eq_false, not_false_eq_true,
      if_true, if_false, ite_true, ite_false, List.nil_append]

theorem buildFindOptions_Projection (o : Options) (fields : Any) :
    (buildFindOptions o fields).Projection = fields := by
  simp [buildFindOptions, FindOptions.SetProjection]

/-- Once the options are decoded and the filter is marshalled, `FindWithLimit`
sends exactly one find call, with the marshalled filter and the compiled
options. -/
theorem FindWithLimit_calls (c : Driver) (database collection : String)
    (filter opts fields : Any) (optsStruct : Options) (b : List Nat)
    (hd : decode c.matchName opts = Except.ok optsStruct)
    (hm : c.Marshal filter = Except.ok b) :
    (FindWithLimit c database collection filter opts fields).calls =
      [⟨database, collection, Filter.bytes b, buildFindOptions optsStruct fields⟩] := by
  unfold FindWithLimit
  simp only [hd, hm]
  split <;> rfl

/-- Once the cursor is open, `FindWithLimit` returns what the materialisation
of the cursor returns and leaves the cursor as the materialisation leaves it. -/
theorem FindWithLimit_opened (c : Driver) (database collection : String)
    (filter opts fields : Any) (optsStruct : Options) (b : List Nat) (cur : Cursor)
    (hd : decode c.matchName opts = Except.ok optsStruct)
    (hm : c.Marshal filter = Except.ok b)
    (hf : c.Find ⟨database, collection, Filter.bytes b, buildFindOptions optsStruct fields⟩
      = Except.ok cur) :
    FindWithLimit c database collection filter opts fields =
      ⟨Outcome.returned (materialize cur).1,
       [⟨database, collection, Filter.bytes b, buildFindOptions optsStruct fields⟩],
       some (materialize cur).2⟩ := by
  unfold FindWithLimit
  simp only [hd, hm, hf]

/-! ## Lemmas on the cursor loop -/

theorem forLoop_nil (cur : Cursor) (list : List M) (hp : cur.pending = []) :
    forLoop cur list = (some list, cur) := by
  rw [forLoop]
  have hn : cur.Next = (false, cur) := by simp [Cursor.Next, hp]
  split
  · next cur1 h => rw [hn] at h; cases h; rfl
  · next cur1 h => rw [hn] at h; cases h

theorem forLoop_cons_ok (cur : Cursor) (list : List M) (m : M) (rest : List (Except String M))
    (hp : cur.pending = Except.ok m :: rest) :
    forLoop cur list =
      forLoop { cur with pending := rest, current := some (Except.ok m) } (list ++ [m]) := by
  rw [forLoop]
  have hn : cur.Next = (true, { cur with pending := rest, current := some (Except.ok m) }) := by
    simp [Cursor.Next, hp]
  split
  · next cur1 h => rw [hn] at h; cases h
  · next cur1 h =>
    rw [hn] at h
    cases h
    simp [Cursor.Decode]

theorem forLoop_cons_error (cur : Cursor) (list : List M) (e : String)
    (rest : List (Except String M)) (hp : cur.pending = Except.error e :: rest) :
    forLoop cur list =
      (none, { cur with pending := rest, current := some (Except.error e) }) := by
  rw [forLoop]
  have hn : cur.Next = (true, { cur with pending := rest, current := some (Except.error e) }) := by
    simp [Cursor.Next, hp]
  split
  · next cur1 h => rw [hn] at h; cases h
  · next cur1 h =>
    rw [hn] at h
    cases h
    simp [Cursor.Decode]

/-- The loop leaves the cursor error and the count of `Close` calls alone. -/
theorem forLoop_keeps (p : List (Except String M)) :
    ∀ (cur : Cursor) (list : List M), cur.pending = p →
      (forLoop cur list).2.err = cur.err ∧
      (forLoop cur list).2.closeCalls = cur.closeCalls := by
  induction p with
  | nil =>
    intro cur list hp
    rw [forLoop_nil cur list hp]
    exact ⟨rfl, rfl⟩
  | cons r rest ih =>
    intro cur list hp
    cases r with
    | error e =>
      rw [forLoop_cons_error cur list e rest hp]
      exact ⟨rfl, rfl⟩
    | ok m =>
      rw [forLoop_cons_ok cur list m rest hp]
      exact ih { cur with pending := rest, current := some (Except.ok m) } (list ++ [m]) rfl

/-- When every document decodes, the loop ends with the list extended by the
records in delivery order. -/
theorem forLoop_all_ok (recs : List M) :
    ∀ (cur : Cursor) (list : List M), cur.pending = recs.map Except.ok →
      (forLoop cur list).1 = some (list ++ recs) := by
  induction recs with
  | nil =>
    intro cur list hp
    rw [forLoop_nil cur list (by simpa using hp)]
    simp
  | cons m rest ih =>
    intro cur list hp
    rw [forLoop_cons_ok cur list m (rest.map Except.ok) (by simpa using hp)]
    rw [ih { cur with pending := rest.map Except.ok, current := some (Except.ok m) }
      (list ++ [m]) rfl]
    simp

/-- When some document fails to decode, the loop body returns nil. -/
theorem forLoop_decode_error (p : List (Except String M)) :
    ∀ (cur : Cursor) (list : List M), cur.pending = p →
      (∃ (k : Nat) (e : String), p[k]? = some (Except.error e)) → (forLoop cur list).1 = none := by
  induction p with
  | nil =>
    intro cur list _ hk
    obtain ⟨k, e, hke⟩ := hk
    simp at hke
  | cons r rest ih =>
    intro cur list hp hk
    cases r with
    | error e =>
      rw [forLoop_cons_error cur list e rest hp]
    | ok m =>
      rw [forLoop_cons_ok cur list m rest hp]
      apply ih { cur with pending := rest, current := some (Except.ok m) } (list ++ [m]) rfl
      obtain ⟨k, e, hke⟩ := hk
      cases k with
      | zero => simp at hke
      | succ j => exact ⟨j, e, by simpa using hke⟩

/-- The deferred `Close` runs once, whatever the loop and the error check do. -/
theorem materialize_closeCalls (cur : Cursor) :
    (materialize cur).2.closeCalls = cur.closeCalls + 1 := by
  have hk := (forLoop_keeps cur.pending cur [] rfl).2
  unfold materialize
  split
  · next cur1 h => rw [h] at hk; simp [Cursor.Close, ← hk]
  · next list cur1 h =>
    rw [h] at hk
    split <;> simp [Cursor.Close, ← hk]

theorem materialize_decode_error (cur : Cursor)
    (hk : ∃ (k : Nat) (e : String), cur.pending[k]? = some (Except.error e)) :
    (materialize cur).1 = none := by
  have h1 := forLoop_decode_error cur.pending cur [] rfl hk
  unfold materialize
  split
  · rfl
  · next list cur1 h => rw [h] at h1; simp at h1

theorem materialize_cursor_error (cur : Cursor) (he : cur.err ≠ none) :
    (materialize cur).1 = none := by
  have hk := (forLoop_keeps cur.pending cur [] rfl).1
  unfold materialize
  split
  · rfl
  · next list cur1 h =>
    rw [h] at hk
    simp only [Cursor.Err]
    split
    · rfl
    · next hn => exact absurd (hk ▸ hn) he

theorem materialize_all_ok (cur : Cursor) (recs : List M)
    (hp : cur.pending = recs.map Except.ok) (he : cur.err = none) :
    (materialize cur).1 = some recs := by
  have h1 := forLoop_all_ok recs cur [] hp
  have hk := (forLoop_keeps cur.pending cur [] rfl).1
  unfold materialize
  split
  · next cur1 h => rw [h] at h1; simp at h1
  · next list cur1 h =>
    rw [h] at h1 hk
    simp only [Cursor.Err]
    simp only [] at hk h1
    rw [hk, he]
    simpa using h1

/-! ## Lemmas on option decoding -/

theorem toInt64_range (n : Int) : -2 ^ 63 ≤ toInt64 n ∧ toInt64 n < 2 ^ 63 := by
  unfold toInt64
  omega

/-- The entry used for a field has a key that names the field. -/
theorem lookupField_names (matchName : String → String → Bool) (kvs : List (String × Any))
    (fieldName : String) (kv : String × Any)
    (h : lookupField matchName kvs fieldName = some kv) :
    namesField matchName kv.1 fieldName = true := by
  unfold lookupField at h
  unfold namesField
  split at h
  · next kv1 h1 =>
    cases h
    have := List.find?_some h1
    simp [this]
  · next h1 =>
    have := List.find?_some h
    simp [this]

/-- A key that names neither of two fields stays among the unused keys. -/
theorem unknown_key_unused (matchName : String → String → Bool) (kvs : List (String × Any))
    (f1 f2 : String) (k : String) (v : Any) (hk : (k, v) ∈ kvs)
    (h1 : namesField matchName k f1 = false) (h2 : namesField matchName k f2 = false) :
    k ∈ unusedKeys matchName kvs [f1, f2] := by
  unfold unusedKeys
  simp only [List.mem_filter, List.mem_map, Bool.not_eq_true', List.contains_eq_any_beq,
    List.any_eq_false, List.mem_filterMap, beq_iff_eq]
  refine ⟨⟨(k, v), hk, rfl⟩, ?_⟩
  intro x hx
  obtain ⟨f, hf, hfx⟩ := hx
  intro hxk
  cases hl : lookupField matchName kvs f with
  | none => simp [hl] at hfx
  | some kv =>
    simp [hl] at hfx
    have hn := lookupField_names matchName kvs f kv hl
    rw [hfx, ← hxk] at hn
    simp only [List.mem_cons, List.mem_singleton, List.not_mem_nil, or_false] at hf
    rcases hf with rfl | rfl
    · rw [h1] at hn; cases hn
    · rw [h2] at hn; cases hn

/-- Decoding a map, one step unfolded. -/
theorem decode_map (matchName : String → String → Bool) (kvs : List (String × Any)) :
    decode matchName (Any.map kvs) =
      match decodeField matchName kvs "Limit" 0 decodeInt,
            decodeField matchName kvs "Sort" [] (decodeSlice matchName),
            unusedKeys matchName kvs ["Limit", "Sort"] with
      | Except.ok limit, Except.ok sort, [] => Except.ok ⟨limit, sort⟩
      | Except.error e, _, _ => Except.error e
      | _, Except.error e, _ => Except.error e
      | _, _, _ => Except.error "has invalid keys" := rfl

/-- With an unused key in the map, decoding the options fails. -/
theorem decode_unused (matchName : String → String → Bool) (kvs : List (String × Any))
    (k : String) (hk : k ∈ unusedKeys matchName kvs ["Limit", "Sort"]) :
    ∃ e, decode matchName (Any.map kvs) = Except.error e := by
  rw [decode_map]
  generalize unusedKeys matchName kvs ["Limit", "Sort"] = u at hk
  generalize decodeField matchName kvs "Limit" 0 decodeInt = l
  generalize decodeField matchName kvs "Sort" [] (decodeSlice matchName) = t
  cases u with
  | nil => cases hk
  | cons a rest =>
    cases l <;> cases t <;> exact ⟨_, rfl⟩

theorem decodeInt_range (name : String) (x : Any) (n : Int)
    (h : decodeInt name x = Except.ok n) : -2 ^ 63 ≤ n ∧ n < 2 ^ 63 := by
  cases x <;> simp [decodeInt] at h
  · subst h; omega
  · subst h; exact toInt64_range _

/-- A decoded limit is a 64-bit signed integer. -/
theorem decode_Limit_range (matchName : String → String → Bool) (opts : Any) (o : Options)
    (h : decode matchName opts = Except.ok o) : -2 ^ 63 ≤ o.Limit ∧ o.Limit < 2 ^ 63 := by
  cases opts with
  | nil => simp [decode] at h; subst h; simp
  | map kvs =>
    rw [decode_map] at h
    have hr : ∀ n, decodeField matchName kvs "Limit" 0 decodeInt = Except.ok n →
        -2 ^ 63 ≤ n ∧ n < 2 ^ 63 := by
      intro n hn
      unfold decodeField at hn
      split at hn
      · cases hn; omega
      · exact decodeInt_range _ _ n hn
    generalize unusedKeys matchName kvs ["Limit", "Sort"] = u at h
    generalize decodeField matchName kvs "Limit" 0 decodeInt = l at h hr
    generalize decodeField matchName kvs "Sort" [] (decodeSlice matchName) = t at h
    cases l <;> cases t <;> cases u <;>
      first
        | (cases h; exact hr _ rfl)
        | cases h
  | bool b => simp [decode] at h
  | int n => simp [decode] at h
  | str s => simp [decode] at h
  | slice xs => simp [decode] at h

/-! ## Query compilation: sort and limit -/

/-- C1: when the decoded options have a non-empty `Sort` list, the sort
document `FindWithLimit` passes to the store has one entry per `Sort` entry,
in the same order: entry `i` is `(Sort[i].Field, 1)` when `Sort[i].Asc` and
`(Sort[i].Field, -1)` otherwise; nothing is reordered, dropped or merged. -/
theorem FindWithLimit_sort_document (c : Driver) (database collection : String)
    (filter opts fields : Any) (optsStruct : Options) (b : List Nat)
    (hd : decode c.matchName opts = Except.ok optsStruct)
    (hm : c.Marshal filter = Except.ok b)
    (hs : optsStruct.SortList ≠ []) :
    ∃ (call : FindCall) (sortStruc : D),
      (FindWithLimit c database collection filter opts fields).calls = [call] ∧
      call.opts.SortDoc = some sortStruc ∧
      sortStruc.length = optsStruct.SortList.length ∧
      (∀ (i : Nat) (sort : SortKey), optsStruct.SortList[i]? = some sort →
        sortStruc[i]? = some ⟨sort.Field, Any.int (if sort.Asc then 1 else -1)⟩) ∧
      sortStruc = optsStruct.SortList.map
        (fun sort => (⟨sort.Field, Any.int (if sort.Asc then 1 else -1)⟩ : E)) := by
  refine ⟨_, _, FindWithLimit_calls c database collection filter opts fields optsStruct b hd hm,
    ?_, ?_, ?_, rfl⟩
  · rw [buildFindOptions_SortDoc]
    have hl : optsStruct.SortList.length ≠ 0 := by
      intro h0
      exact hs (List.length_eq_zero.mp h0)
    simp [hl]
  · simp
  · intro i sort hi
    simp [List.getElem?_map, hi]

/-- C1 on `sort=[{field:"age",asc:false},{field:"name",asc:true}]`: the sort
document is `[(age,-1),(name,+1)]`. -/
theorem FindWithLimit_sort_document_witness :
    ∃ (call : FindCall),
      (FindWithLimit (sampleDriver (cursorOf [] none)) "db" "people" (Any.map [])
        sampleSortOpts Any.nil).calls = [call] ∧
      call.opts.SortDoc = some [⟨"age", Any.int (-1)⟩, ⟨"name", Any.int 1⟩] := by
  obtain ⟨call, sortStruc, hc, hsd, _, _, hmap⟩ :=
    FindWithLimit_sort_document (sampleDriver (cursorOf [] none)) "db" "people" (Any.map [])
      sampleSortOpts Any.nil ⟨0, [⟨false, "age"⟩, ⟨true, "name"⟩]⟩ [5, 0, 0, 0, 0] rfl rfl
      (by simp)
  refine ⟨call, hc, ?_⟩
  rw [hsd, hmap]
  rfl

/-- C2: with decoded `Limit = 0` the find call carries no limit (the option
stays unset); with decoded `Limit = N > 0` its limit is exactly `N`. -/
theorem FindWithLimit_limit_option (c : Driver) (database collection : String)
    (filter opts fields : Any) (optsStruct : Options) (b : List Nat)
    (hd : decode c.matchName opts = Except.ok optsStruct)
    (hm : c.Marshal filter = Except.ok b) :
    ∃ (call : FindCall),
      (FindWithLimit c database collection filter opts fields).calls = [call] ∧
      (optsStruct.Limit = 0 → call.opts.Limit = none) ∧
      (0 < optsStruct.Limit → call.opts.Limit = some optsStruct.Limit) := by
  refine ⟨_, FindWithLimit_calls c database collection filter opts fields optsStruct b hd hm,
    ?_, ?_⟩
  · intro h0
    rw [buildFindOptions_Limit]
    simp [h0]
  · intro hpos
    rw [buildFindOptions_Limit]
    have : optsStruct.Limit ≠ 0 := by omega
    simp [this]

/-- C2 on `{limit: 5}` and on `{limit: 0}`. -/
theorem FindWithLimit_limit_option_witness :
    (∃ (call : FindCall),
      (FindWithLimit (sampleDriver (cursorOf [] none)) "db" "people" (Any.map [])
        (Any.map [("limit", Any.int 5)]) Any.nil).calls = [call] ∧
      call.opts.Limit = some 5) ∧
    (∃ (call : FindCall),
      (FindWithLimit (sampleDriver (cursorOf [] none)) "db" "people" (Any.map [])
        (Any.map [("limit", Any.int 0)]) Any.nil).calls = [call] ∧
      call.opts.Limit = none) := by
  constructor
  · obtain ⟨call, hc, _, hpos⟩ :=
      FindWithLimit_limit_option (sampleDriver (cursorOf [] none)) "db" "people" (Any.map [])
        (Any.map [("limit", Any.int 5)]) Any.nil ⟨5, []⟩ [5, 0, 0, 0, 0] rfl rfl
    exact ⟨call, hc, hpos (by decide)⟩
  · obtain ⟨call, hc, hzero, _⟩ :=
      FindWithLimit_limit_option (sampleDriver (cursorOf [] none)) "db" "people" (Any.map [])
        (Any.map [("limit", Any.int 0)]) Any.nil ⟨0, []⟩ [5, 0, 0, 0, 0] rfl rfl
    exact ⟨call, hc, hzero rfl⟩

/-- C8: when the decoded options have an empty `Sort` list, the find call
carries no sort option at all. -/
theorem FindWithLimit_no_sort_clause (c : Driver) (database collection : String)
    (filter opts fields : Any) (optsStruct : Options) (b : List Nat)
    (hd : decode c.matchName opts = Except.ok optsStruct)
    (hm : c.Marshal filter = Except.ok b)
    (hs : optsStruct.SortList = []) :
    ∃ (call : FindCall),
      (FindWithLimit c database collection filter opts fields).calls = [call] ∧
      call.opts.SortDoc = none := by
  refine ⟨_, FindWithLimit_calls c database collection filter opts fields optsStruct b hd hm, ?_⟩
  rw [buildFindOptions_SortDoc]
  simp [hs]

/-- C8 on `{limit: 5}`, which has no sort entries. -/
theorem FindWithLimit_no_sort_clause_witness :
    ∃ (call : FindCall),
      (FindWithLimit (sampleDriver (cursorOf [] none)) "db" "people" (Any.map [])
        (Any.map [("limit", Any.int 5)]) (Any.map [("name", Any.int 1)])).calls = [call] ∧
      call.opts.SortDoc = none :=
  FindWithLimit_no_sort_clause (sampleDriver (cursorOf [] none)) "db" "people" (Any.map [])
    (Any.map [("limit", Any.int 5)]) (Any.map [("name", Any.int 1)]) ⟨5, []⟩ [5, 0, 0, 0, 0]
    rfl rfl rfl

/-- C9 fails on `{limit: -1}`: the options decode, and the find call carries the
limit `-1`, which is neither absent nor strictly positive. -/
theorem FindWithLimit_negative_limit :
    decode foldMatch (Any.map [("limit", Any.int (-1))]) = Except.ok ⟨-1, []⟩ ∧
    ∃ (call : FindCall),
      (FindWithLimit (sampleDriver (cursorOf [] none)) "db" "people" (Any.map [])
        (Any.map [("limit", Any.int (-1))]) Any.nil).calls = [call] ∧
      call.opts.Limit = some (-1) ∧
      ¬ (call.opts.Limit = none ∨ ∃ (n : Int), call.opts.Limit = some n ∧ 0 < n) := by
  refine ⟨by rfl,
    ⟨"db", "people", Filter.bytes [5, 0, 0, 0, 0], ⟨some (-1), none, Any.nil⟩⟩, by rfl, rfl, ?_⟩
  intro h
  rcases h with h | ⟨n, hn, hpos⟩
  · cases h
  · cases hn
    omega

/-- C9 as amended: for every options value that decodes, the limit of the find
call is absent exactly when the decoded `Limit` is 0, and is otherwise the
decoded `Limit` itself, a non-zero 64-bit signed integer of either sign. -/
theorem FindWithLimit_limit_absent_or_nonzero (c : Driver) (database collection : String)
    (filter opts fields : Any) (optsStruct : Options) (b : List Nat)
    (hd : decode c.matchName opts = Except.ok optsStruct)
    (hm : c.Marshal filter = Except.ok b) :
    ∃ (call : FindCall),
      (FindWithLimit c database collection filter opts fields).calls = [call] ∧
      ((optsStruct.Limit = 0 ∧ call.opts.Limit = none) ∨
       (optsStruct.Limit ≠ 0 ∧ call.opts.Limit = some optsStruct.Limit ∧
         -2 ^ 63 ≤ optsStruct.Limit ∧ optsStruct.Limit < 2 ^ 63)) := by
  refine ⟨_, FindWithLimit_calls c database collection filter opts fields optsStruct b hd hm, ?_⟩
  rw [buildFindOptions_Limit]
  by_cases h0 : optsStruct.Limit = 0
  · left
    simp [h0]
  · right
    exact ⟨h0, by simp [h0], decode_Limit_range c.matchName opts optsStruct hd⟩

/-- C9 as amended, on `{limit: -7}`. -/
theorem FindWithLimit_limit_absent_or_nonzero_witness :
    ∃ (call : FindCall),
      (FindWithLimit (sampleDriver (cursorOf [] none)) "db" "people" (Any.map [])
        (Any.map [("limit", Any.int (-7))]) Any.nil).calls = [call] ∧
      call.opts.Limit = some (-7) := by
  obtain ⟨call, hc, h⟩ :=
    FindWithLimit_limit_absent_or_nonzero (sampleDriver (cursorOf [] none)) "db" "people"
      (Any.map []) (Any.map [("limit", Any.int (-7))]) Any.nil ⟨-7, []⟩ [5, 0, 0, 0, 0] (by rfl) rfl
  refine ⟨call, hc, ?_⟩
  rcases h with ⟨h0, _⟩ | ⟨_, hl, _⟩
  · exact absurd h0 (by decide)
  · exact hl

/-! ## Option decoding in `FindWithLimit` -/

/-- C3: when the raw options are a map with a key that names neither the
`Limit` field nor the `Sort` field, decoding fails, `FindWithLimit` stops in
`log.Fatal`, and no find call reaches the store. -/
theorem FindWithLimit_unknown_key (c : Driver) (database collection : String)
    (filter fields : Any) (kvs : List (String × Any)) (k : String) (v : Any)
    (hk : (k, v) ∈ kvs)
    (h1 : namesField c.matchName k "Limit" = false)
    (h2 : namesField c.matchName k "Sort" = false) :
    (∃ (e : String), decode c.matchName (Any.map kvs) = Except.error e) ∧
    (∃ (e : String),
      (FindWithLimit c database collection filter (Any.map kvs) fields).outcome
        = Outcome.fatal e) ∧
    (FindWithLimit c database collection filter (Any.map kvs) fields).calls = [] ∧
    (FindWithLimit c database collection filter (Any.map kvs) fields).cursor = none := by
  obtain ⟨e, he⟩ := decode_unused c.matchName kvs k
    (unknown_key_unused c.matchName kvs "Limit" "Sort" k v hk h1 h2)
  refine ⟨⟨e, he⟩, ⟨e, ?_⟩, ?_, ?_⟩ <;>
  · unfold FindWithLimit
    simp only [he]

/-- C3 on `{"limit": 5, "bogus": true}`. -/
theorem FindWithLimit_unknown_key_witness :
    (∃ (e : String),
      decode foldMatch (Any.map [("limit", Any.int 5), ("bogus", Any.bool true)])
        = Except.error e) ∧
    (FindWithLimit (sampleDriver (cursorOf [] none)) "db" "people" (Any.map [])
      (Any.map [("limit", Any.int 5), ("bogus", Any.bool true)]) Any.nil).calls = [] := by
  have h := FindWithLimit_unknown_key (sampleDriver (cursorOf [] none)) "db" "people"
    (Any.map []) Any.nil [("limit", Any.int 5), ("bogus", Any.bool true)] "bogus"
    (Any.bool true) (List.Mem.tail _ (List.Mem.head _)) (by rfl) (by rfl)
  exact ⟨h.1, h.2.2.1⟩

/-- C4: decoding the empty map succeeds with `Limit = 0` and an empty `Sort`
list, and the find call sent for it carries neither a limit nor a sort. -/
theorem FindWithLimit_empty_options (c : Driver) (database collection : String)
    (filter fields : Any) (b : List Nat)
    (hm : c.Marshal filter = Except.ok b) :
    ∃ (optsStruct : Options) (call : FindCall),
      decode c.matchName (Any.map []) = Except.ok optsStruct ∧
      optsStruct.Limit = 0 ∧ optsStruct.SortList.length = 0 ∧
      (FindWithLimit c database collection filter (Any.map []) fields).calls = [call] ∧
      call.opts.Limit = none ∧ call.opts.SortDoc = none := by
  have hd : decode c.matchName (Any.map []) = Except.ok ⟨0, []⟩ := rfl
  refine ⟨⟨0, []⟩, _, hd, rfl, rfl,
    FindWithLimit_calls c database collection filter (Any.map []) fields ⟨0, []⟩ b hd hm, ?_, ?_⟩
  · rw [buildFindOptions_Limit]; simp
  · rw [buildFindOptions_SortDoc]; simp

/-- C4 with a concrete driver. -/
theorem FindWithLimit_empty_options_witness :
    ∃ (optsStruct : Options) (call : FindCall),
      decode foldMatch (Any.map []) = Except.ok optsStruct ∧
      optsStruct.Limit = 0 ∧ optsStruct.SortList.length = 0 ∧
      (FindWithLimit (sampleDriver (cursorOf [] none)) "db" "people" (Any.map [])
        (Any.map []) Any.nil).calls = [call] ∧
      call.opts.Limit = none ∧ call.opts.SortDoc = none :=
  FindWithLimit_empty_options (sampleDriver (cursorOf [] none)) "db" "people" (Any.map [])
    Any.nil [5, 0, 0, 0, 0] rfl

/-! ## Cursor materialisation -/

/-- C5: once the cursor is open, if some delivered record fails to decode, or
the cursor reports an error after the iteration, `FindWithLimit` returns nil,
not the records appended so far. -/
theorem FindWithLimit_error_returns_nil (c : Driver) (database collection : String)
    (filter opts fields : Any) (optsStruct : Options) (b : List Nat) (cur : Cursor)
    (hd : decode c.matchName opts = Except.ok optsStruct)
    (hm : c.Marshal filter = Except.ok b)
    (hf : c.Find ⟨database, collection, Filter.bytes b, buildFindOptions optsStruct fields⟩
      = Except.ok cur)
    (herr : (∃ (k : Nat) (e : String), cur.pending[k]? = some (Except.error e)) ∨
      cur.err ≠ none) :
    (FindWithLimit c database collection filter opts fields).outcome = Outcome.returned none := by
  rw [FindWithLimit_opened c database collection filter opts fields optsStruct b cur hd hm hf]
  rcases herr with hk | he
  · simp [materialize_decode_error cur hk]
  · simp [materialize_cursor_error cur he]

/-- C5 on a stream of five records whose third record fails to decode. -/
theorem FindWithLimit_error_returns_nil_witness :
    fiveRecords.length = 5 ∧
    (FindWithLimit (sampleDriver (cursorOf fiveRecords none)) "db" "people" (Any.map [])
      (Any.map []) Any.nil).outcome = Outcome.returned none :=
  ⟨rfl, FindWithLimit_error_returns_nil (sampleDriver (cursorOf fiveRecords none)) "db" "people"
    (Any.map []) (Any.map []) Any.nil ⟨0, []⟩ [5, 0, 0, 0, 0] (cursorOf fiveRecords none)
    rfl rfl rfl (Or.inl ⟨2, "cannot decode", rfl⟩)⟩

/-- C6: once the cursor is open, if every delivered record decodes and the
cursor reports no error, `FindWithLimit` returns a non-nil list that holds the
decoded records in delivery order, as many as were delivered; for no records
it is the empty non-nil list. -/
theorem FindWithLimit_returns_records (c : Driver) (database collection : String)
    (filter opts fields : Any) (optsStruct : Options) (b : List Nat) (cur : Cursor)
    (recs : List M)
    (hd : decode c.matchName opts = Except.ok optsStruct)
    (hm : c.Marshal filter = Except.ok b)
    (hf : c.Find ⟨database, collection, Filter.bytes b, buildFindOptions optsStruct fields⟩
      = Except.ok cur)
    (hp : cur.pending = recs.map Except.ok)
    (he : cur.err = none) :
    (FindWithLimit c database collection filter opts fields).outcome
      = Outcome.returned (some recs) ∧
    recs.length = cur.pending.length ∧
    Outcome.returned (some recs) ≠ Outcome.returned none := by
  rw [FindWithLimit_opened c database collection filter opts fields optsStruct b cur hd hm hf]
  refine ⟨?_, ?_, ?_⟩
  · simp [materialize_all_ok cur recs hp he]
  · simp [hp]
  · intro h
    cases h

/-- C6 on a cursor that yields no record: the result is the empty non-nil list. -/
theorem FindWithLimit_returns_records_witness :
    (FindWithLimit (sampleDriver (cursorOf [] none)) "db" "people" (Any.map [])
      (Any.map []) Any.nil).outcome = Outcome.returned (some []) :=
  (FindWithLimit_returns_records (sampleDriver (cursorOf [] none)) "db" "people"
    (Any.map []) (Any.map []) Any.nil ⟨0, []⟩ [5, 0, 0, 0, 0] (cursorOf [] none) []
    rfl rfl rfl rfl rfl).1

/-- C7: once the cursor is open, every run of `FindWithLimit` returns (it does
not end in `log.Fatal`, which would skip the deferred call) and has called
`Close` on the cursor, whether the result is the list or nil. -/
theorem FindWithLimit_closes_cursor (c : Driver) (database collection : String)
    (filter opts fields : Any) (optsStruct : Options) (b : List Nat) (cur : Cursor)
    (hd : decode c.matchName opts = Except.ok optsStruct)
    (hm : c.Marshal filter = Except.ok b)
    (hf : c.Find ⟨database, collection, Filter.bytes b, buildFindOptions optsStruct fields⟩
      = Except.ok cur) :
    ∃ (list : Option (List M)) (cur1 : Cursor),
      (FindWithLimit c database collection filter opts fields).outcome = Outcome.returned list ∧
      (FindWithLimit c database collection filter opts fields).cursor = some cur1 ∧
      cur1.closeCalls = cur.closeCalls + 1 := by
  rw [FindWithLimit_opened c database collection filter opts fields optsStruct b cur hd hm hf]
  exact ⟨_, _, rfl, rfl, materialize_closeCalls cur⟩

/-- C7 on a stream that ends with a cursor error. -/
theorem FindWithLimit_closes_cursor_witness :
    ∃ (list : Option (List M)) (cur1 : Cursor),
      (FindWithLimit (sampleDriver (cursorOf fiveRecords (some "connection reset"))) "db"
        "people" (Any.map []) (Any.map []) Any.nil).outcome = Outcome.returned list ∧
      (FindWithLimit (sampleDriver (cursorOf fiveRecords (some "connection reset"))) "db"
        "people" (Any.map []) (Any.map []) Any.nil).cursor = some cur1 ∧
      cur1.closeCalls = 0 + 1 :=
  FindWithLimit_closes_cursor (sampleDriver (cursorOf fiveRecords (some "connection reset")))
    "db" "people" (Any.map []) (Any.map []) Any.nil ⟨0, []⟩ [5, 0, 0, 0, 0]
    (cursorOf fiveRecords (some "connection reset")) rfl rfl rfl

/-! ## `FindAll` -/

/-- C10: the code at the input `FindAll("db", "people")`. The claim asks for the
empty filter document; the find call of `FindAll` carries `bson.D{{}}`, a
document with one element (empty key, nil value), where the empty document
is written `bson.D{}` elsewhere in the file. -/
theorem FindAll_filter_not_empty :
    ∃ (call : FindCall),
      (FindAll (sampleDriver (cursorOf [] none)) "db" "people").calls = [call] ∧
      call.filter = Filter.doc [⟨"", Any.nil⟩] ∧
      call.filter ≠ Filter.doc [] := by
  refine ⟨⟨"db", "people", Filter.doc [⟨"", Any.nil⟩], FindOptions.Find⟩, rfl, rfl, ?_⟩
  intro h
  cases h

/-- The find call of `FindAll`, for every database and collection name: one
call, to that collection, with the options the compiled path builds for no
limit, no sort and a nil projection, and with the filter literal of line 200. -/
theorem FindAll_query (c : Driver) (database collection : String) :
    ∃ (call : FindCall),
      (FindAll c database collection).calls = [call] ∧
      call.database = database ∧ call.collection = collection ∧
      call.filter = Filter.doc [⟨"", Any.nil⟩] ∧
      call.opts = buildFindOptions ⟨0, []⟩ Any.nil ∧
      call.opts.Limit = none ∧ call.opts.SortDoc = none ∧ call.opts.Projection = Any.nil := by
  refine ⟨⟨database, collection, Filter.doc [⟨"", Any.nil⟩], FindOptions.Find⟩, ?_,
    rfl, rfl, rfl, rfl, rfl, rfl, rfl⟩
  unfold FindAll
  simp only []
  split
  · rfl
  · split <;> rfl

end Xk6Mongo
